import Mathlib

/-!
Verification of the LofarCtl core (Receiver, Beamlet, Beam, Observation)
against its natural-language specification.

The Python source is shallowly embedded: machine floats are modelled by
exact rationals (every constant appearing in the relevant code paths —
clock/1024 subband widths, integer band edges and integer subband indices —
is exactly representable as an IEEE double, so the rational model agrees
with the float computation on these paths), numpy integer arrays by lists
of integers, and raised exceptions by Option/Except-style results.
-/

set_option maxRecDepth 8000

namespace LofarCtl

/-- Clip an integer to the closed interval lo..hi, as numpy ndarray.clip. -/
def clipZ (x lo hi : ℤ) : ℤ := min (max x lo) hi

/-- Round a rational to the nearest integer, ties to even: numpy.round. -/
def roundHalfEven (q : ℚ) : ℤ :=
  let f := ⌊q⌋
  let r := q - f
  if r < 1/2 then f
  else if 1/2 < r then f + 1
  else if f % 2 = 0 then f else f + 1

/-- Receiver state, from Receiver.__init__ (src/Receiver.py): the subband
channel width (clock/1024 MHz), the receiver band, the passband, and the
frequency-axis direction sign. -/
structure Receiver where
  width : ℚ
  band : ℚ × ℚ
  passband : ℚ × ℚ
  direction : ℚ
  deriving DecidableEq

/-- Receiver.__init__ (src/Receiver.py lines 25-74): the clock is 160 MHz
for rcumode 6 and 200 MHz otherwise; band, passband and direction are set
per mode; an rcumode outside 0..7 raises (modelled as none). -/
def Receiver.make (rcumode : ℕ) : Option Receiver :=
  let clock : ℚ := if rcumode = 6 then 160 else 200
  let width : ℚ := clock / 1024
  if rcumode = 0 then some ⟨width, (0, 0), (0, 0), 1⟩
  else if rcumode = 1 then some ⟨width, (0, 100), (10, 90), 1⟩
  else if rcumode = 2 then some ⟨width, (0, 100), (30, 80), 1⟩
  else if rcumode = 3 then some ⟨width, (0, 100), (10, 80), 1⟩
  else if rcumode = 4 then some ⟨width, (0, 100), (30, 80), 1⟩
  else if rcumode = 5 then some ⟨width, (100, 200), (110, 190), 1⟩
  else if rcumode = 6 then some ⟨width, (160, 240), (170, 230), 1⟩
  else if rcumode = 7 then some ⟨width, (200, 300), (210, 270), 1⟩
  else none

/-- Receiver.Frequency_from_subband (src/Receiver.py lines 127-134):
clip the subband to 0..511, then frequency = s * width * direction + band[0]. -/
def Frequency_from_subband (r : Receiver) (subband : ℤ) : ℚ :=
  (clipZ subband 0 511 : ℤ) * r.width * r.direction + r.band.1

/-- Receiver.Subband_from_frequency (src/Receiver.py lines 136-145):
round(direction * (f - band[0]) / width) clipped to 0..511. -/
def Subband_from_frequency (r : Receiver) (frequency : ℚ) : ℤ :=
  clipZ (roundHalfEven (r.direction * (frequency - r.band.1) / r.width)) 0 511

theorem roundHalfEven_intCast (z : ℤ) : roundHalfEven (z : ℚ) = z := by
  unfold roundHalfEven
  rw [Int.floor_intCast]
  norm_num

theorem clipZ_eq_self {x lo hi : ℤ} (h1 : lo ≤ x) (h2 : x ≤ hi) : clipZ x lo hi = x := by
  unfold clipZ
  rw [max_eq_left h1, min_eq_left h2]

theorem roundtrip_core (r : Receiver) (hd : r.direction = 1) (hw : r.width ≠ 0)
    (s : ℤ) (h0 : 0 ≤ s) (h1 : s ≤ 511) :
    Subband_from_frequency r (Frequency_from_subband r s) = s := by
  unfold Subband_from_frequency Frequency_from_subband
  rw [clipZ_eq_self h0 h1, hd]
  have h : (1 : ℚ) * ((s : ℚ) * r.width * 1 + r.band.1 - r.band.1) / r.width = (s : ℚ) := by
    rw [mul_one, add_sub_cancel_right, one_mul, mul_div_assoc, div_self hw, mul_one]
  rw [h, roundHalfEven_intCast, clipZ_eq_self h0 h1]

/-- C3: for every receiver mode 0..7 and every subband s in 0..511,
Subband_from_frequency applied to Frequency_from_subband s under the same
mode yields s again (the clipping branches never fire for s in range, so
the round trip holds without exception). -/
theorem C3_subband_frequency_roundtrip (m : ℕ) (hm : m ≤ 7) (r : Receiver)
    (hr : Receiver.make m = some r) (s : ℤ) (h0 : 0 ≤ s) (h1 : s ≤ 511) :
    Subband_from_frequency r (Frequency_from_subband r s) = s := by
  have hdw : r.direction = 1 ∧ r.width ≠ 0 := by
    interval_cases m <;>
      simp only [Receiver.make, reduceIte] at hr <;>
      (cases hr; exact ⟨rfl, by norm_num⟩)
  exact roundtrip_core r hdw.1 hdw.2 s h0 h1

/-- C3 witness: mode 5, subband 256. -/
theorem C3_witness : ∃ r, Receiver.make 5 = some r ∧
    Subband_from_frequency r (Frequency_from_subband r 256) = 256 := by
  have hmk : Receiver.make 5 = some ⟨200/1024, (100, 200), (110, 190), 1⟩ := rfl
  exact ⟨_, hmk, C3_subband_frequency_roundtrip 5 (by decide) _ hmk 256 (by decide) (by decide)⟩

/-- Python str.upper on ASCII strings (all strings in this code are ASCII). -/
def strUpper (s : String) : String := ⟨s.data.map Char.toUpper⟩

/-- Python str.lower on ASCII strings. -/
def strLower (s : String) : String := ⟨s.data.map Char.toLower⟩

/-- needle occurs at the start of hay. -/
def startsWithSeq : List Char → List Char → Bool
  | [], _ => true
  | _ :: _, [] => false
  | a :: as, b :: bs => a == b && startsWithSeq as bs

/-- needle occurs as a contiguous run inside hay. -/
def containsSeq (needle : List Char) : List Char → Bool
  | [] => startsWithSeq needle []
  | c :: rest => startsWithSeq needle (c :: rest) || containsSeq needle rest

/-- Python hay.find(needle) != -1. -/
def strContains (hay needle : String) : Bool := containsSeq needle.data hay.data

/-- config.antennaset (src/config/config.py): the implemented antenna sets. -/
def antennasetConfig : List String := ["HBA_JOINED", "HBA_DUAL", "LBA_INNER"]

/-- config.rcumode (src/config/config.py): the implemented RCU modes. -/
def rcumodeConfig : List ℕ := [0, 1, 2, 3, 4, 5, 6, 7]

/-- config.coordsys (src/config/config.py): the implemented coordinate systems. -/
def coordsysConfig : List String := ["AZELGEO", "J2000"]

/-- A subband or beamlet-id field of a directive: either a single integer
(the scalar case of _Beamlet_options) or an inclusive lo:hi range (the
two-element-array case used by the contiguity merge). -/
inductive IdSpec where
  | single (i : ℤ)
  | range (lo hi : ℤ)
  deriving DecidableEq

/-- A beamlet, from _Beamlet.__init__ / BeamletHBA.__init__ / BeamletLBA
(src/Beamlet.py). The ana field is the HBA analogue pointing: some for a
BeamletHBA, none for a BeamletLBA. -/
structure Beamlet where
  bid : IdSpec
  subband : IdSpec
  ra : ℚ
  dec : ℚ
  antennaset : String
  rcumode : ℕ
  coordsys : String
  ana : Option (ℚ × ℚ)
  deriving DecidableEq

/-- The validation chain of _Beamlet.__init__ (src/Beamlet.py lines 54-86):
antenna set (upper-cased) must be a configured set, the rcumode a configured
mode, the coordsys a configured system, and the antenna set must be
compatible with the rcumode (HBA with modes 5-7, LBA with modes 3-4).
Returns the stored (upper-cased) antenna set, or none when a check raises. -/
def checkBeamlet (antennaset : String) (rcumode : ℕ) (coordsys : String) : Option String :=
  let up := strUpper antennaset
  if antennasetConfig.contains up = false then none
  else if rcumodeConfig.contains rcumode = false then none
  else if coordsysConfig.contains coordsys = false then none
  else if strContains up "HBA" && [5, 6, 7].contains rcumode then some up
  else if strContains up "LBA" && [3, 4].contains rcumode then some up
  else none

/-- BeamletHBA.__init__ (src/Beamlet.py lines 242-265): validate via
_Beamlet.__init__ and store the analogue pointing. -/
def mkBeamletHBA (anara anadec : ℚ) (bid subband : IdSpec) (ra dec : ℚ)
    (antennaset : String) (rcumode : ℕ) (coordsys : String) : Option Beamlet :=
  match checkBeamlet antennaset rcumode coordsys with
  | none => none
  | some up => some ⟨bid, subband, ra, dec, up, rcumode, coordsys, some (anara, anadec)⟩

/-- BeamletLBA.__init__ (src/Beamlet.py lines 187-204): validate via
_Beamlet.__init__; no analogue pointing. -/
def mkBeamletLBA (bid subband : IdSpec) (ra dec : ℚ)
    (antennaset : String) (rcumode : ℕ) (coordsys : String) : Option Beamlet :=
  match checkBeamlet antennaset rcumode coordsys with
  | none => none
  | some up => some ⟨bid, subband, ra, dec, up, rcumode, coordsys, none⟩

/-- The fields of the rendered beamctl directive string, in the order emitted
by _Beamlet_options (src/Beamlet.py lines 144-153) with the optional anadir
suffix of BeamletHBA._Beamlet_options (lines 281-287). -/
structure Directive where
  antennaset : String
  rcus : String
  rcumode : ℕ
  subbands : IdSpec
  beamlets : IdSpec
  digdir : ℚ × ℚ × String
  anadir : Option (ℚ × ℚ × String)
  deriving DecidableEq

/-- _Beamlet_options plus the BeamletHBA anadir suffix: renders the beamlet
into the directive fields (rcus is always the literal 0:191; anadir is
present exactly when the beamlet carries an analogue pointing). -/
def Beamlet_options (b : Beamlet) : Directive :=
  ⟨b.antennaset, "0:191", b.rcumode, b.subband, b.bid, (b.ra, b.dec, b.coordsys),
    b.ana.map (fun p => (p.1, p.2, b.coordsys))⟩

/-- The antenna/mode compatibility test of _Beamlet.__init__ lines 81-86,
stated on the upper-cased antenna set. -/
def modeCompatible (up : String) (rcumode : ℕ) : Bool :=
  (strContains up "HBA" && [5, 6, 7].contains rcumode) ||
    (strContains up "LBA" && [3, 4].contains rcumode)

theorem checkBeamlet_eq_some (aset : String) (m : ℕ) (cs : String)
    (h1 : antennasetConfig.contains (strUpper aset) = true)
    (h2 : modeCompatible (strUpper aset) m = true)
    (h3 : coordsysConfig.contains cs = true) :
    checkBeamlet aset m cs = some (strUpper aset) := by
  have hm : rcumodeConfig.contains m = true := by
    unfold modeCompatible at h2
    simp only [Bool.or_eq_true_iff, Bool.and_eq_true_iff, rcumodeConfig, List.contains,
      List.elem_iff, List.mem_cons, List.not_mem_nil, or_false] at h2 ⊢
    rcases h2 with ⟨_, h⟩ | ⟨_, h⟩ <;> omega
  unfold checkBeamlet
  simp only [h1, hm, h3, Bool.true_eq_false, reduceIte]
  unfold modeCompatible at h2
  rcases Bool.or_eq_true_iff.mp h2 with h | h
  · simp only [h, reduceIte]
  · cases hh : (strContains (strUpper aset) "HBA" && [5, 6, 7].contains m)
    · simp only [hh, h, Bool.false_eq_true, reduceIte]
    · simp only [hh, reduceIte]

theorem strUpper_config_fixed {u : String} (h : antennasetConfig.contains u = true) :
    strUpper u = u := by
  have hm : u ∈ antennasetConfig := by
    simpa [List.contains, List.elem_iff] using h
  simp only [antennasetConfig, List.mem_cons, List.not_mem_nil, or_false] at hm
  rcases hm with rfl | rfl | rfl <;> decide

/-- The Python for-loop of _Make_beam that appends one constructed beamlet
per element and raises (none) at the first failing construction. -/
def optionTraverse (f : α → Option β) : List α → Option (List β)
  | [] => some []
  | a :: t =>
    match f a, optionTraverse f t with
    | some b, some bs => some (b :: bs)
    | _, _ => none

/-- numpy.arange(a, a + n) over the integers: n consecutive values from a. -/
def rangeList (a : ℤ) : ℕ → List ℤ
  | 0 => []
  | n + 1 => a :: rangeList (a + 1) n

/-- The numpy test ((l[1:] - l[:-1]) == 1).all(): every consecutive
difference equals 1. True on lists of length below 2 (an empty numpy
comparison is all-true). -/
def sepAllOne : List ℤ → Bool
  | a :: b :: t => b - a == 1 && sepAllOne (b :: t)
  | _ => true

/-- numpy ndarray.min on an integer array (never called on an empty array
in the modelled paths; the junk value 0 is returned there). -/
def listMin : List ℤ → ℤ
  | [] => 0
  | x :: xs => xs.foldl min x

/-- numpy ndarray.max, as listMin. -/
def listMax : List ℤ → ℤ
  | [] => 0
  | x :: xs => xs.foldl max x

/-- A beam, from Beam.__init__ (src/Beam.py lines 38-76): the stored
(upper-cased) antenna set, the contiguity flag, and the generated beamlets. -/
structure Beam where
  bids : List ℤ
  subbands : List ℤ
  nbeamlets : ℕ
  contiguous : Bool
  beamlets : List Beamlet
  ra : ℚ
  dec : ℚ
  antennaset : String
  rcumode : ℕ
  coordsys : String
  deriving DecidableEq

/-- Beam.__init__ together with Beam._Make_beam (src/Beam.py):
an empty subband array makes numpy.min raise (none); subbands outside
0..511 raise; a bid/subband length mismatch raises; the contiguity flag is
set when there are at least two beamlets and both consecutive-difference
arrays are all ones; _lofar_HBA is the source's literal
(1 if antennaset contains HBA else 1), so the HBA branch is always taken;
a contiguous beam gets one beamlet on the (first, last) ranges and a
non-contiguous beam one beamlet per (bid, subband) pair, each beamlet
validating its arguments (a beamlet failure propagates as none). -/
def mkBeam (bids subbands : List ℤ) (ra dec : ℚ) (antennaset : String)
    (rcumode : ℕ) (coordsys : String) : Option Beam :=
  match subbands with
  | [] => none
  | s0 :: srest =>
    if listMin (s0 :: srest) < 0 || listMax (s0 :: srest) > 511 then none
    else if bids.length ≠ (s0 :: srest).length then none
    else
      let n := (s0 :: srest).length
      let contiguous := decide (1 < n) && sepAllOne bids && sepAllOne (s0 :: srest)
      let aset := strUpper antennaset
      let lofarHBA : ℕ := if strContains aset "HBA" then 1 else 1
      let beamlets? : Option (List Beamlet) :=
        if contiguous then
          (if lofarHBA = 1 then
            mkBeamletHBA ra dec (IdSpec.range (bids.headD 0) (bids.getLastD 0))
              (IdSpec.range s0 ((s0 :: srest).getLastD 0)) ra dec aset rcumode coordsys
          else
            mkBeamletLBA (IdSpec.range (bids.headD 0) (bids.getLastD 0))
              (IdSpec.range s0 ((s0 :: srest).getLastD 0)) ra dec aset rcumode coordsys).map
            (fun bl => [bl])
        else
          optionTraverse (fun p =>
            if lofarHBA = 1 then
              mkBeamletHBA ra dec (IdSpec.single p.1) (IdSpec.single p.2) ra dec aset
                rcumode coordsys
            else
              mkBeamletLBA (IdSpec.single p.1) (IdSpec.single p.2) ra dec aset
                rcumode coordsys) (bids.zip (s0 :: srest))
      beamlets?.map (fun bls =>
        ⟨bids, s0 :: srest, n, contiguous, bls, ra, dec, aset, rcumode, coordsys⟩)

/-- Beam.beamctl renders the directives of the beam's beamlets in order. -/
def beamDirectives (b : Beam) : List Directive :=
  b.beamlets.map Beamlet_options

/-- Whether a directive field is a lo:hi range. -/
def IdSpec.rangeForm : IdSpec → Bool
  | .single _ => false
  | .range _ _ => true

/-- A beam rendering is a single merged range directive: exactly one
directive whose beamlets and subbands fields are both lo:hi ranges. -/
def mergedRender : List Directive → Bool
  | [d] => d.beamlets.rangeForm && d.subbands.rangeForm
  | _ => false

theorem traverse_mkBeamletHBA_some (l : List (ℤ × ℤ)) (ra dec : ℚ) (aset : String)
    (m : ℕ) (cs : String) (up : String) (hck : checkBeamlet aset m cs = some up) :
    optionTraverse (fun p => mkBeamletHBA ra dec (IdSpec.single p.1) (IdSpec.single p.2)
        ra dec aset m cs) l =
      some (l.map (fun p =>
        ⟨IdSpec.single p.1, IdSpec.single p.2, ra, dec, up, m, cs, some (ra, dec)⟩)) := by
  induction l with
  | nil => rfl
  | cons p t ih =>
    unfold optionTraverse
    rw [ih]
    simp [mkBeamletHBA, hck]

theorem traverse_mkBeamletHBA_none (p : ℤ × ℤ) (t : List (ℤ × ℤ)) (ra dec : ℚ)
    (aset : String) (m : ℕ) (cs : String) (hck : checkBeamlet aset m cs = none) :
    optionTraverse (fun p => mkBeamletHBA ra dec (IdSpec.single p.1) (IdSpec.single p.2)
        ra dec aset m cs) (p :: t) = none := by
  simp [optionTraverse, mkBeamletHBA, hck]

/-- C10: Beamlet and Beam construction are case-insensitive in the
antenna-set argument: for every antenna-set string whose upper-cased form
is configured (with a compatible receiver mode, a valid coordinate system
and, for the beam, a valid subband/id layout), beamlet construction
succeeds with the stored and rendered antennaset field equal to the
upper-cased input, and beam construction succeeds with the beam's stored
antennaset and the antennaset field of every rendered directive equal to
the upper-cased input. -/
theorem C10_antennaset_case_insensitive (aset cs : String) (m : ℕ)
    (anara anadec ra dec : ℚ) (bid subband : IdSpec) (bids subbands : List ℤ)
    (h1 : antennasetConfig.contains (strUpper aset) = true)
    (h2 : modeCompatible (strUpper aset) m = true)
    (h3 : coordsysConfig.contains cs = true)
    (hne : subbands ≠ [])
    (hmin : 0 ≤ listMin subbands) (hmax : listMax subbands ≤ 511)
    (hlen : bids.length = subbands.length) :
    (∃ bl, mkBeamletHBA anara anadec bid subband ra dec aset m cs = some bl ∧
      bl.antennaset = strUpper aset ∧ (Beamlet_options bl).antennaset = strUpper aset) ∧
    (∃ b, mkBeam bids subbands ra dec aset m cs = some b ∧
      b.antennaset = strUpper aset ∧
      ∀ d ∈ beamDirectives b, d.antennaset = strUpper aset) := by
  have hup : strUpper (strUpper aset) = strUpper aset := strUpper_config_fixed h1
  have hck : checkBeamlet (strUpper aset) m cs = some (strUpper aset) := by
    have hc := checkBeamlet_eq_some (strUpper aset) m cs (by rw [hup]; exact h1)
      (by rw [hup]; exact h2) h3
    rw [hup] at hc
    exact hc
  constructor
  · unfold mkBeamletHBA
    rw [checkBeamlet_eq_some aset m cs h1 h2 h3]
    exact ⟨_, rfl, rfl, rfl⟩
  · cases subbands with
    | nil => exact absurd rfl hne
    | cons s0 srest =>
      unfold mkBeam
      have hc1 : (decide (listMin (s0 :: srest) < 0) ||
          decide (listMax (s0 :: srest) > 511)) = false := by
        simp only [Bool.or_eq_false_iff, decide_eq_false_iff_not]
        constructor <;> omega
      simp only [hc1, Bool.false_eq_true, if_false,
        if_neg (by omega : ¬bids.length ≠ (s0 :: srest).length), ite_self, reduceIte]
      cases hcont : (decide (1 < (s0 :: srest).length) && sepAllOne bids &&
          sepAllOne (s0 :: srest)) with
      | true =>
        simp only [hcont, if_true, mkBeamletHBA, hck, Option.map_some']
        refine ⟨_, rfl, rfl, ?_⟩
        intro d hd
        simp only [beamDirectives, List.map_cons, List.map_nil, List.mem_singleton] at hd
        subst hd
        rfl
      | false =>
        simp only [hcont, Bool.false_eq_true, if_false,
          traverse_mkBeamletHBA_some _ ra dec (strUpper aset) m cs (strUpper aset) hck,
          Option.map_some']
        refine ⟨_, rfl, rfl, ?_⟩
        intro d hd
        simp only [beamDirectives, List.map_map, List.mem_map] at hd
        obtain ⟨p, _, rfl⟩ := hd
        rfl

/-- C10 witness: the lower-case input hba_dual with mode 5 succeeds at
both the beamlet and the beam level, stored and rendered as HBA_DUAL. -/
theorem C10_witness :
    (∃ bl, mkBeamletHBA 0 0 (IdSpec.single 0) (IdSpec.single 100) 0 0
        "hba_dual" 5 "J2000" = some bl ∧
      bl.antennaset = strUpper "hba_dual" ∧
      (Beamlet_options bl).antennaset = strUpper "hba_dual") ∧
    (∃ b, mkBeam [0] [100] 0 0 "hba_dual" 5 "J2000" = some b ∧
      b.antennaset = strUpper "hba_dual" ∧
      ∀ d ∈ beamDirectives b, d.antennaset = strUpper "hba_dual") :=
  C10_antennaset_case_insensitive "hba_dual" "J2000" 5 0 0 0 0 (IdSpec.single 0)
    (IdSpec.single 100) [0] [100] (by decide) (by decide) (by decide) (by decide)
    (by decide) (by decide) (by decide)

/-- Structure of a successfully constructed beam, read off from mkBeam. -/
theorem mkBeam_inv (bids subbands : List ℤ) (ra dec : ℚ) (aset : String)
    (m : ℕ) (cs : String) (b : Beam)
    (h : mkBeam bids subbands ra dec aset m cs = some b) :
    b.bids = bids ∧ b.subbands = subbands ∧
    bids.length = subbands.length ∧ 0 < subbands.length ∧
    b.ra = ra ∧ b.dec = dec ∧ b.coordsys = cs ∧
    b.contiguous = (decide (1 < subbands.length) && sepAllOne bids && sepAllOne subbands) ∧
    (b.contiguous = true →
      ∃ up, b.beamlets = [⟨IdSpec.range (bids.headD 0) (bids.getLastD 0),
        IdSpec.range (subbands.headD 0) (subbands.getLastD 0),
        ra, dec, up, m, cs, some (ra, dec)⟩]) ∧
    (b.contiguous = false →
      ∃ up, b.beamlets = (bids.zip subbands).map (fun p =>
        ⟨IdSpec.single p.1, IdSpec.single p.2, ra, dec, up, m, cs, some (ra, dec)⟩)) := by
  unfold mkBeam at h
  cases subbands with
  | nil => exact absurd h (by simp)
  | cons s0 srest =>
    simp only [ite_self] at h
    split at h
    · exact absurd h (by simp)
    · split at h
      · exact absurd h (by simp)
      · rename_i hrange hlen
        rw [Option.map_eq_some'] at h
        obtain ⟨bls, hbls, hb⟩ := h
        subst hb
        simp only [reduceIte] at hbls
        refine ⟨rfl, rfl, by omega, by simp, rfl, rfl, rfl, rfl, ?_, ?_⟩
        · intro hc
          dsimp only at hc ⊢
          rw [hc] at hbls
          simp only [if_true] at hbls
          rw [Option.map_eq_some'] at hbls
          obtain ⟨bl, hbl, hlist⟩ := hbls
          unfold mkBeamletHBA at hbl
          cases hck : checkBeamlet (strUpper aset) m cs with
          | none => rw [hck] at hbl; exact absurd hbl (by simp)
          | some up =>
            rw [hck] at hbl
            refine ⟨up, ?_⟩
            rw [← hlist]
            cases hbl
            rfl
        · intro hc
          dsimp only at hc ⊢
          rw [hc] at hbls
          simp only [Bool.false_eq_true, if_false] at hbls
          cases hck : checkBeamlet (strUpper aset) m cs with
          | none =>
            cases bids with
            | nil => simp at hlen
            | cons b0 brest =>
              rw [List.zip_cons_cons,
                traverse_mkBeamletHBA_none (b0, s0) _ ra dec (strUpper aset) m cs hck] at hbls
              exact absurd hbls (by simp)
          | some up =>
            rw [traverse_mkBeamletHBA_some _ ra dec (strUpper aset) m cs up hck] at hbls
            exact ⟨up, by cases hbls; rfl⟩

theorem rangeList_length (a : ℤ) (n : ℕ) : (rangeList a n).length = n := by
  induction n generalizing a with
  | zero => rfl
  | succ k ih => simp [rangeList, ih]

theorem rangeList_getLastD (a : ℤ) (n : ℕ) (d : ℤ) :
    (rangeList a (n + 1)).getLastD d = a + n := by
  induction n generalizing a d with
  | zero => simp [rangeList]
  | succ k ih =>
    rw [show rangeList a (k + 1 + 1) = a :: rangeList (a + 1) (k + 1) from rfl,
      List.getLastD_cons, ih]
    push_cast
    ring

theorem sepAllOne_eq_rangeList (l : List ℤ) (h : sepAllOne l = true) :
    l = rangeList (l.headD 0) l.length := by
  induction l with
  | nil => rfl
  | cons a t ih =>
    cases t with
    | nil => rfl
    | cons b t2 =>
      simp only [sepAllOne, Bool.and_eq_true, beq_iff_eq] at h
      have ih2 : b :: t2 = rangeList b (t2.length + 1) := by
        have h3 := ih h.2
        simp only [List.headD_cons, List.length_cons] at h3
        exact h3
      have hb : b = a + 1 := by omega
      subst hb
      simp only [List.headD_cons, List.length_cons]
      rw [show rangeList a (t2.length + 1 + 1) = a :: rangeList (a + 1) (t2.length + 1) from rfl,
        ← ih2]

/-- Expansion of a directive field back to the individual values it
configures: a lo:hi range covers lo..hi inclusive. -/
def expandSpec : IdSpec → List ℤ
  | .single i => [i]
  | .range lo hi => rangeList lo (hi - lo + 1).toNat

theorem expandSpec_range (a : ℤ) (k : ℕ) :
    expandSpec (IdSpec.range a (a + k)) = rangeList a (k + 1) := by
  simp only [expandSpec]
  congr 1
  omega

/-- The (id, subband, pointing) tuples one directive configures. -/
def directiveTuples (d : Directive) : List (ℤ × ℤ × (ℚ × ℚ × String)) :=
  List.zipWith (fun i s => (i, s, d.digdir)) (expandSpec d.beamlets) (expandSpec d.subbands)

/-- The tuples a rendered directive list configures. -/
def renderedTuples (ds : List Directive) : List (ℤ × ℤ × (ℚ × ℚ × String)) :=
  (ds.map directiveTuples).flatten

/-- Modelled from the spec (4.4): the tuple set that a non-merged rendering
of the beam would configure - one (id, subband, shared-pointing) tuple per
(id, subband) pair of the beam. -/
def nonMergedTuples (b : Beam) : List (ℤ × ℤ × (ℚ × ℚ × String)) :=
  List.zipWith (fun i s => (i, s, (b.ra, b.dec, b.coordsys))) b.bids b.subbands

/-- C4: a beam built from equal-length id and subband lists is rendered as
one single merged range directive exactly when it has at least two beamlets
and both its id list and its subband list are strictly ascending with step
one (all consecutive differences equal one); otherwise it is rendered with
one single-id single-subband directive per (id, subband) pair. -/
theorem C4_contiguity_merge (bids subbands : List ℤ) (ra dec : ℚ) (aset : String)
    (m : ℕ) (cs : String) (b : Beam)
    (h : mkBeam bids subbands ra dec aset m cs = some b) :
    (mergedRender (beamDirectives b) = true ↔
      2 ≤ subbands.length ∧ sepAllOne bids = true ∧ sepAllOne subbands = true) ∧
    (mergedRender (beamDirectives b) = false →
      (beamDirectives b).map (fun d => (d.beamlets, d.subbands)) =
        (bids.zip subbands).map (fun p => (IdSpec.single p.1, IdSpec.single p.2))) := by
  obtain ⟨hbids, hsubs, hlen, hpos, hra, hdec, hcs, hcont, hctrue, hcfalse⟩ :=
    mkBeam_inv bids subbands ra dec aset m cs b h
  cases hc : b.contiguous with
  | true =>
    obtain ⟨up, hbl⟩ := hctrue hc
    have hcond := hcont.symm.trans hc
    simp only [Bool.and_eq_true, decide_eq_true_eq] at hcond
    have hmr : mergedRender (beamDirectives b) = true := by
      simp only [beamDirectives, hbl, List.map_cons, List.map_nil]
      rfl
    refine ⟨⟨fun _ => ⟨by omega, hcond.1.2, hcond.2⟩, fun _ => hmr⟩, fun hmf => ?_⟩
    rw [hmr] at hmf
    cases hmf
  | false =>
    obtain ⟨up, hbl⟩ := hcfalse hc
    have hcond := hcont.symm.trans hc
    have hmf : mergedRender (beamDirectives b) = false := by
      simp only [beamDirectives, hbl, List.map_map]
      cases bids.zip subbands with
      | nil => rfl
      | cons p t =>
        cases t with
        | nil => rfl
        | cons q t2 => rfl
    refine ⟨⟨fun hff => absurd (hmf.symm.trans hff) (by simp), fun hrhs => ?_⟩, fun _ => ?_⟩
    · exfalso
      obtain ⟨h2, hsb, hss⟩ := hrhs
      have : (decide (1 < subbands.length) && sepAllOne bids && sepAllOne subbands) = true := by
        rw [hsb, hss]
        simp
        omega
      rw [this] at hcond
      cases hcond
    · simp only [beamDirectives, hbl, List.map_map]
      rfl

/-- The concrete contiguous beam of the spec example (ids 5,6,7 and
subbands 100,101,102). -/
def beamC4 : Beam :=
  ⟨[5, 6, 7], [100, 101, 102], 3, true,
    [⟨IdSpec.range 5 7, IdSpec.range 100 102, 0, 0, "HBA_DUAL", 5, "J2000", some (0, 0)⟩],
    0, 0, "HBA_DUAL", 5, "J2000"⟩

/-- C4 witness: ids 5,6,7 with subbands 100,101,102 merge to one range
directive. -/
theorem C4_witness : mergedRender (beamDirectives beamC4) = true :=
  ((C4_contiguity_merge [5, 6, 7] [100, 101, 102] 0 0 "HBA_DUAL" 5 "J2000" beamC4
    (by decide)).1).mpr (by decide)

/-- C5: for every merge-eligible (contiguous) beam, expanding the merged
directive's id range and subband range back into individual
(id, subband, pointing) tuples yields exactly the tuples that the
non-merged per-pair rendering of the same beam would configure. -/
theorem C5_merge_transparency (bids subbands : List ℤ) (ra dec : ℚ) (aset : String)
    (m : ℕ) (cs : String) (b : Beam)
    (h : mkBeam bids subbands ra dec aset m cs = some b)
    (hc : b.contiguous = true) :
    renderedTuples (beamDirectives b) = nonMergedTuples b := by
  obtain ⟨hbids, hsubs, hlen, hpos, hra, hdec, hcs, hcont, hctrue, _⟩ :=
    mkBeam_inv bids subbands ra dec aset m cs b h
  obtain ⟨up, hbl⟩ := hctrue hc
  have hcond := hcont.symm.trans hc
  simp only [Bool.and_eq_true, decide_eq_true_eq] at hcond
  obtain ⟨k, hk⟩ : ∃ k, bids.length = k + 1 := ⟨bids.length - 1, by omega⟩
  have hbRange : bids = rangeList (bids.headD 0) (k + 1) := by
    rw [← hk]
    exact sepAllOne_eq_rangeList bids hcond.1.2
  have hsRange : subbands = rangeList (subbands.headD 0) (k + 1) := by
    rw [show k + 1 = subbands.length from by omega]
    exact sepAllOne_eq_rangeList subbands hcond.2
  have hbLast : bids.getLastD 0 = bids.headD 0 + k := by
    conv_lhs => rw [hbRange]
    rw [rangeList_getLastD]
  have hsLast : subbands.getLastD 0 = subbands.headD 0 + k := by
    conv_lhs => rw [hsRange]
    rw [rangeList_getLastD]
  simp only [renderedTuples, beamDirectives, hbl, List.map_cons, List.map_nil,
    List.flatten, List.append_nil, directiveTuples, Beamlet_options, nonMergedTuples,
    hbids, hsubs, hra, hdec, hcs, hbLast, hsLast, expandSpec_range]
  rw [show bids.zipWith (fun i s => (i, s, (ra, dec, cs))) subbands =
    (rangeList (bids.headD 0) (k + 1)).zipWith (fun i s => (i, s, (ra, dec, cs)))
      (rangeList (subbands.headD 0) (k + 1)) from by rw [← hbRange, ← hsRange]]

/-- The concrete contiguous beam used as the C5 witness input. -/
def beamC5 : Beam :=
  ⟨[0, 1], [200, 201], 2, true,
    [⟨IdSpec.range 0 1, IdSpec.range 200 201, 0, 0, "HBA_DUAL", 5, "J2000", some (0, 0)⟩],
    0, 0, "HBA_DUAL", 5, "J2000"⟩

/-- C5 witness: the merged beam on ids 0,1 and subbands 200,201 expands to
the two per-pair tuples. -/
theorem C5_witness : renderedTuples (beamDirectives beamC5) = nonMergedTuples beamC5 :=
  C5_merge_transparency [0, 1] [200, 201] 0 0 "HBA_DUAL" 5 "J2000" beamC5
    (by decide) (by decide)

/-- C6: the code puts an anadir field on every directive, including those
of LBA antenna sets, because Beam.__init__ sets _lofar_HBA to 1 in both
branches of its conditional: a beam with antennaset LBA_INNER and rcumode 3
renders with anadir present, contradicting the claim that LBA directives
carry no anadir field. -/
theorem C6_lba_anadir_eval :
    (mkBeam [0] [100] 0 0 "LBA_INNER" 3 "J2000").map
      (fun b => (beamDirectives b).map (fun d => d.anadir)) =
      some [some (0, 0, "J2000")] := by
  decide

/-- Observation._max_beamlets (src/Observation.py line 50). -/
def maxBeamlets : ℕ := 244

/-- numpy.lib.arraysetops.setdiff1d(numpy.arange(244), bids): the values of
0..243 not among the allocated bids, in ascending order. -/
def availableBids (bids : List ℕ) : List ℕ :=
  (List.range maxBeamlets).filter (fun i => !bids.contains i)

/-- Observation._Bid_manager (src/Observation.py lines 198-215): take the
first nbids available IDs; if fewer are available, raise before mutating
(the RuntimeError is thrown before self._bids is reassigned), so the pool
is returned unchanged; otherwise append the new IDs to the pool. The first
component is the returned ID list (none models the raise), the second the
pool after the call. -/
def Bid_manager (bids : List ℕ) (nbids : ℕ) : Option (List ℕ) × List ℕ :=
  let new_bids := (availableBids bids).take nbids
  if new_bids.length ≠ nbids then (none, bids)
  else (some new_bids, bids ++ new_bids)

/-- Observation state (src/Observation.py __init__ lines 36-55). The
receiver is the one built from the rcumode (Receiver(rcumode)). The degree
conversion branch (inradians=False multiplies by the float pi/180) is not
modelled: coordinates are taken as already-in-radians rationals, which the
claims under verification never exercise. -/
structure Observation where
  duration : ℤ
  antennaset : String
  rcumode : ℕ
  nbeamlets : ℕ
  nbeams : ℕ
  bids : List ℕ
  beams : List Beam
  receiver : Receiver
  deriving DecidableEq

/-- Observation.__init__: constructing Receiver(rcumode) raises on an
invalid mode, so construction of the whole Observation fails there. -/
def mkObservation (duration : ℤ) (antennaset : String) (rcumode : ℕ) : Option Observation :=
  match Receiver.make rcumode with
  | none => none
  | some r => some ⟨duration, antennaset, rcumode, 0, 0, [], [], r⟩

/-- Observation.Add_beam (src/Observation.py lines 116-152): allocate one
beamlet ID per subband (a RuntimeError is caught and the method returns
with the state as _Bid_manager left it - unchanged, since the raise
happens before the pool mutation); then construct the Beam. A Beam
construction failure is caught and no beam is appended, but the pool
mutation performed by _Bid_manager is not rolled back. On success the beam
is appended, _nbeamlets is set to the pool size and _nbeams incremented.
The advisory Check_subband call only prints and is not modelled. -/
def Add_beam (o : Observation) (subbands : List ℤ) (ra dec : ℚ) (coordsys : String) :
    Observation :=
  match Bid_manager o.bids subbands.length with
  | (none, _) => o
  | (some newBids, bids') =>
    match mkBeam (newBids.map Int.ofNat) subbands ra dec o.antennaset o.rcumode coordsys with
    | none => { o with bids := bids' }
    | some beam =>
      { o with beams := o.beams ++ [beam], nbeams := o.nbeams + 1,
               nbeamlets := bids'.length, bids := bids' }

/-- The window construction of Observation.Add_beam_frequency (lines
177-186). The source compares position.lower() against the literal lower,
but position.upper() against the lower-case literal upper, which no string
ever equals, so the upper branch is unreachable and every position other
than (case-insensitively) lower takes the center branch. half is the
Python 2 integer division nsubbands/2. -/
def windowSubbands (subband0 : ℤ) (nsubbands : ℕ) (position : String) : List ℤ :=
  if strLower position = "lower" then rangeList subband0 nsubbands
  else if strUpper position = "upper" then rangeList (subband0 - nsubbands + 1) nsubbands
  else rangeList (subband0 - (nsubbands / 2 : ℕ)) nsubbands

/-- The boundary shift of Observation.Add_beam_frequency (lines 187-193):
if the window minimum is negative, shift the whole window up by its
overshoot; otherwise if the maximum exceeds 511, shift it down. -/
def shiftWindow (subbands : List ℤ) : List ℤ :=
  let sub_min := listMin subbands
  let sub_max := listMax subbands
  if sub_min < 0 then subbands.map (fun s => s - sub_min)
  else if sub_max > 511 then subbands.map (fun s => s - (sub_max - 511))
  else subbands

/-- Observation.Add_beam_frequency (src/Observation.py lines 154-196). -/
def Add_beam_frequency (o : Observation) (frequency : ℚ) (nsubbands : ℕ) (ra dec : ℚ)
    (coordsys : String) (position : String) : Observation :=
  let subband0 := Subband_from_frequency o.receiver frequency
  Add_beam o (shiftWindow (windowSubbands subband0 nsubbands position)) ra dec coordsys

/-- The beam-adding operations a caller can apply to an Observation. -/
inductive ObsOp where
  | addBeam (subbands : List ℤ) (ra dec : ℚ) (coordsys : String)
  | addBeamFrequency (frequency : ℚ) (nsubbands : ℕ) (ra dec : ℚ)
      (coordsys : String) (position : String)

/-- Apply one beam-adding call. -/
def applyOp (o : Observation) : ObsOp → Observation
  | .addBeam subbands ra dec cs => Add_beam o subbands ra dec cs
  | .addBeamFrequency f n ra dec cs pos => Add_beam_frequency o f n ra dec cs pos

theorem availableBids_pairwise (bids : List ℕ) :
    (availableBids bids).Pairwise (· < ·) :=
  (List.pairwise_lt_range maxBeamlets).filter _

theorem mem_availableBids {bids : List ℕ} {y : ℕ} :
    y ∈ availableBids bids ↔ y < maxBeamlets ∧ y ∉ bids := by
  unfold availableBids
  simp [List.mem_filter, List.mem_range, List.contains, List.elem_iff]

/-- C2: when at least n of the IDs 0..243 are unallocated, _Bid_manager
returns exactly the n smallest unallocated IDs in ascending order and
appends exactly those to the pool; when fewer than n remain it raises
(none) and leaves the pool unchanged. -/
theorem C2_bid_manager (bids : List ℕ) (n : ℕ) :
    (n ≤ (availableBids bids).length →
      ∃ new, Bid_manager bids n = (some new, bids ++ new) ∧
        new.length = n ∧ new.Pairwise (· < ·) ∧
        (∀ x ∈ new, x < maxBeamlets ∧ x ∉ bids) ∧
        (∀ y, y < maxBeamlets → y ∉ bids → y ∉ new → ∀ x ∈ new, x < y)) ∧
    ((availableBids bids).length < n → Bid_manager bids n = (none, bids)) := by
  constructor
  · intro hn
    have hlen : ((availableBids bids).take n).length = n := by
      rw [List.length_take]
      omega
    refine ⟨(availableBids bids).take n, ?_, hlen, ?_, ?_, ?_⟩
    · unfold Bid_manager
      rw [if_neg (by rw [hlen]; exact fun hf => hf rfl)]
    · exact (availableBids_pairwise bids).sublist (List.take_sublist n _)
    · intro x hx
      exact mem_availableBids.mp (List.take_subset n (availableBids bids) hx)
    · intro y hy1 hy2 hyn x hx
      have hyav : y ∈ (availableBids bids).take n ++ (availableBids bids).drop n := by
        rw [List.take_append_drop]
        exact mem_availableBids.mpr ⟨hy1, hy2⟩
      have hyd : y ∈ (availableBids bids).drop n := by
        rcases List.mem_append.mp hyav with h | h
        · exact absurd h hyn
        · exact h
      have hpair := availableBids_pairwise bids
      rw [← List.take_append_drop n (availableBids bids), List.pairwise_append] at hpair
      exact hpair.2.2 x hx y hyd
  · intro hlt
    unfold Bid_manager
    rw [if_pos (by rw [List.length_take]; omega)]

/-- C2 witness: with IDs 0, 1 and 5 allocated, requesting 2 IDs yields
the two smallest free IDs; requesting 1 ID from a full pool fails and
leaves the pool unchanged. -/
theorem C2_witness :
    (∃ new, Bid_manager [0, 1, 5] 2 = (some new, [0, 1, 5] ++ new) ∧
      new.length = 2 ∧ new.Pairwise (· < ·) ∧
      (∀ x ∈ new, x < maxBeamlets ∧ x ∉ [0, 1, 5]) ∧
      (∀ y, y < maxBeamlets → y ∉ [0, 1, 5] → y ∉ new → ∀ x ∈ new, x < y)) ∧
    Bid_manager (List.range 244) 1 = (none, List.range 244) :=
  ⟨(C2_bid_manager [0, 1, 5] 2).1 (by decide),
   (C2_bid_manager (List.range 244) 1).2 (by decide)⟩

/-- The freshly constructed Observation(duration=120, antennaset=HBA_DUAL,
rcumode=5); mkObservation 120 HBA_DUAL 5 evaluates to exactly this value. -/
def obs0 : Observation :=
  ⟨120, "HBA_DUAL", 5, 0, 0, [], [], ⟨200 / 1024, (100, 200), (110, 190), 1⟩⟩

/-- C1 counterexample: on a fresh observation, Add_beam with the
out-of-range subband 600 fails beam validation after the beamlet ID 0 was
allocated; the beam list and counters are unchanged but the allocated-ID
pool is not: it now contains the leaked ID 0. -/
theorem C1_counterexample :
    (Add_beam obs0 [600] 0 0 "J2000").beams = obs0.beams ∧
    (Add_beam obs0 [600] 0 0 "J2000").nbeams = obs0.nbeams ∧
    (Add_beam obs0 [600] 0 0 "J2000").nbeamlets = obs0.nbeamlets ∧
    (Add_beam obs0 [600] 0 0 "J2000").bids ≠ obs0.bids := by
  refine ⟨rfl, rfl, rfl, ?_⟩
  decide

/-- C1 amended: when the beam construction fails validation after the
beamlet IDs were successfully allocated, the beam list and the
beam/beamlet counters are unchanged, but the pool of allocated beamlet IDs
keeps the IDs allocated for the failed beam: the pool after the call is
the old pool extended by the freshly allocated batch (no rollback). -/
theorem C1_failed_add_state (o : Observation) (subbands : List ℤ) (ra dec : ℚ)
    (cs : String) (newBids bids' : List ℕ)
    (halloc : Bid_manager o.bids subbands.length = (some newBids, bids'))
    (hfail : mkBeam (newBids.map Int.ofNat) subbands ra dec o.antennaset o.rcumode cs = none) :
    (Add_beam o subbands ra dec cs).beams = o.beams ∧
    (Add_beam o subbands ra dec cs).nbeams = o.nbeams ∧
    (Add_beam o subbands ra dec cs).nbeamlets = o.nbeamlets ∧
    (Add_beam o subbands ra dec cs).bids = o.bids ++ newBids := by
  have hb : bids' = o.bids ++ newBids := by
    have h2 := halloc
    unfold Bid_manager at h2
    dsimp only at h2
    split at h2
    · cases h2
    · rw [Prod.mk.injEq] at h2
      obtain ⟨ha2, hb2⟩ := h2
      cases ha2
      exact hb2.symm
  have hres : Add_beam o subbands ra dec cs = { o with bids := bids' } := by
    unfold Add_beam
    rw [halloc]
    simp only [hfail]
  rw [hres, hb]
  exact ⟨rfl, rfl, rfl, rfl⟩

/-- C1 witness: the amended statement at the concrete failing input. -/
theorem C1_witness :
    (Add_beam obs0 [600] 0 0 "J2000").beams = obs0.beams ∧
    (Add_beam obs0 [600] 0 0 "J2000").nbeams = obs0.nbeams ∧
    (Add_beam obs0 [600] 0 0 "J2000").nbeamlets = obs0.nbeamlets ∧
    (Add_beam obs0 [600] 0 0 "J2000").bids = obs0.bids ++ [0] :=
  C1_failed_add_state obs0 [600] 0 0 "J2000" [0] [0] (by decide) (by decide)

theorem Add_beam_nbeams_invariant (o : Observation) (subbands : List ℤ) (ra dec : ℚ)
    (cs : String) (h : o.nbeams = o.beams.length) :
    (Add_beam o subbands ra dec cs).nbeams = (Add_beam o subbands ra dec cs).beams.length := by
  unfold Add_beam
  cases hbm : Bid_manager o.bids subbands.length with
  | mk fst snd =>
    cases fst with
    | none => simpa using h
    | some newBids =>
      dsimp only
      cases hmk : mkBeam (newBids.map Int.ofNat) subbands ra dec o.antennaset o.rcumode cs with
      | none => simpa using h
      | some beam => simp [h]

/-- C9: after any sequence of Add_beam / Add_beam_frequency calls on a
freshly constructed Observation, the beam counter equals the length of
the beam list: it is incremented exactly once per appended beam and never
on a failed add. -/
theorem C9_nbeams_invariant (d : ℤ) (aset : String) (m : ℕ) (o : Observation)
    (h : mkObservation d aset m = some o) (ops : List ObsOp) :
    (ops.foldl applyOp o).nbeams = (ops.foldl applyOp o).beams.length := by
  have h0 : o.nbeams = o.beams.length := by
    unfold mkObservation at h
    cases hr : Receiver.make m with
    | none => rw [hr] at h; cases h
    | some r => rw [hr] at h; cases h; rfl
  clear h
  induction ops generalizing o with
  | nil => exact h0
  | cons op rest ih =>
    rw [List.foldl_cons]
    apply ih
    cases op with
    | addBeam s ra dec cs => exact Add_beam_nbeams_invariant o s ra dec cs h0
    | addBeamFrequency f n ra dec cs pos => exact Add_beam_nbeams_invariant o _ ra dec cs h0

/-- C9 witness: one successful two-subband add on a fresh observation. -/
theorem C9_witness :
    (([ObsOp.addBeam [100, 101] 0 0 "J2000"]).foldl applyOp obs0).nbeams =
      (([ObsOp.addBeam [100, 101] 0 0 "J2000"]).foldl applyOp obs0).beams.length :=
  C9_nbeams_invariant 120 "HBA_DUAL" 5 obs0 rfl [ObsOp.addBeam [100, 101] 0 0 "J2000"]

theorem foldl_min_rangeList (n : ℕ) : ∀ b x : ℤ, x ≤ b → (rangeList b n).foldl min x = x := by
  induction n with
  | zero => intro b x h; rfl
  | succ k ih =>
    intro b x h
    rw [show rangeList b (k + 1) = b :: rangeList (b + 1) k from rfl, List.foldl_cons,
      min_eq_left h]
    exact ih (b + 1) x (by omega)

theorem listMin_rangeList (a : ℤ) (k : ℕ) : listMin (rangeList a (k + 1)) = a := by
  rw [show rangeList a (k + 1) = a :: rangeList (a + 1) k from rfl]
  unfold listMin
  exact foldl_min_rangeList k (a + 1) a (by omega)

theorem foldl_max_rangeList (n : ℕ) :
    ∀ b x : ℤ, (rangeList b (n + 1)).foldl max x = max x (b + n) := by
  induction n with
  | zero =>
    intro b x
    simp [rangeList]
  | succ k ih =>
    intro b x
    rw [show rangeList b (k + 1 + 1) = b :: rangeList (b + 1) (k + 1) from rfl,
      List.foldl_cons, ih (b + 1) (max x b), max_assoc,
      max_eq_right (by omega : b ≤ b + 1 + (k : ℤ))]
    congr 1
    push_cast
    ring

theorem listMax_rangeList (a : ℤ) (k : ℕ) : listMax (rangeList a (k + 1)) = a + k := by
  cases k with
  | zero => simp [listMax, rangeList]
  | succ k2 =>
    rw [show rangeList a (k2 + 1 + 1) = a :: rangeList (a + 1) (k2 + 1) from rfl]
    show (rangeList (a + 1) (k2 + 1)).foldl max a = a + ((k2 + 1 : ℕ) : ℤ)
    rw [foldl_max_rangeList k2 (a + 1) a,
      max_eq_right (by omega : a ≤ a + 1 + (k2 : ℤ))]
    push_cast
    ring

theorem mem_rangeList {x a : ℤ} {n : ℕ} : x ∈ rangeList a n ↔ a ≤ x ∧ x < a + n := by
  induction n generalizing a with
  | zero =>
    simp only [rangeList, List.not_mem_nil, false_iff]
    push_cast
    omega
  | succ k ih =>
    simp only [rangeList, List.mem_cons, ih]
    push_cast
    omega

theorem rangeList_map_sub (a d : ℤ) (n : ℕ) :
    (rangeList a n).map (fun s => s - d) = rangeList (a - d) n := by
  induction n generalizing a with
  | zero => rfl
  | succ k ih =>
    rw [show rangeList a (k + 1) = a :: rangeList (a + 1) k from rfl, List.map_cons, ih,
      show rangeList (a - d) (k + 1) = (a - d) :: rangeList (a - d + 1) k from rfl]
    congr 2
    ring

/-- C8: for a contiguous window of n subbands (1 <= n <= 512) starting at
a, the boundary logic shifts the whole window by exactly the overshoot
when it exits 0..511 on one side (up by -a when a < 0, down by
(a+n-1)-511 when the top exceeds 511), leaves it alone otherwise, and the
result always has exactly n elements, all within 0..511. -/
theorem C8_window_shift (a : ℤ) (n : ℕ) (h1 : 1 ≤ n) (h2 : n ≤ 512) :
    (shiftWindow (rangeList a n)).length = n ∧
    (∀ x ∈ shiftWindow (rangeList a n), 0 ≤ x ∧ x ≤ 511) ∧
    (a < 0 → shiftWindow (rangeList a n) = rangeList 0 n) ∧
    (0 ≤ a → 511 < a + n - 1 → shiftWindow (rangeList a n) = rangeList (512 - n) n) ∧
    (0 ≤ a → a + n - 1 ≤ 511 → shiftWindow (rangeList a n) = rangeList a n) := by
  obtain ⟨k, rfl⟩ : ∃ k, n = k + 1 := ⟨n - 1, by omega⟩
  have hmin := listMin_rangeList a k
  have hmax := listMax_rangeList a k
  by_cases hneg : a < 0
  · have hres : shiftWindow (rangeList a (k + 1)) = rangeList 0 (k + 1) := by
      simp only [shiftWindow, hmin, hmax, if_pos hneg, rangeList_map_sub]
      congr 1
      ring
    refine ⟨by rw [hres, rangeList_length], ?_, fun _ => hres, ?_, ?_⟩
    · intro x hx
      rw [hres] at hx
      have := mem_rangeList.mp hx
      omega
    · intro ha _
      omega
    · intro ha _
      omega
  · by_cases hhigh : 511 < a + k
    · have hres : shiftWindow (rangeList a (k + 1)) = rangeList (512 - (k + 1)) (k + 1) := by
        simp only [shiftWindow, hmin, hmax, if_neg hneg, if_pos hhigh, rangeList_map_sub]
        congr 1
        omega
      refine ⟨by rw [hres, rangeList_length], ?_, ?_, fun _ _ => hres, ?_⟩
      · intro x hx
        rw [hres] at hx
        have := mem_rangeList.mp hx
        push_cast at this
        omega
      · intro hf
        omega
      · intro _ hle
        push_cast at hle
        omega
    · have hres : shiftWindow (rangeList a (k + 1)) = rangeList a (k + 1) := by
        simp only [shiftWindow, hmin, hmax, if_neg hneg, if_neg hhigh]
      refine ⟨by rw [hres, rangeList_length], ?_, ?_, ?_, fun _ _ => hres⟩
      · intro x hx
        rw [hres] at hx
        have := mem_rangeList.mp hx
        push_cast at this
        omega
      · intro hf
        omega
      · intro _ hgt
        push_cast at hgt
        omega

/-- C8 witness: an unshifted lower bound of -3 with 10 subbands shifts
the window up by exactly 3. -/
theorem C8_witness : shiftWindow (rangeList (-3) 10) = rangeList 0 10 :=
  (C8_window_shift (-3) 10 (by decide) (by decide)).2.2.1 (by decide)

/-- C7: the position argument never reaches the upper branch: the source
compares position.upper() (an upper-cased string) with the lower-case
literal, so the comparison is false for every input and position=upper
falls through to the center branch. With center subband 100 and 4
subbands, upper therefore yields the centered window 98..101 instead of a
window ending at 100, while lower starts at the center subband and center
puts floor(n/2) subbands below the center, as claimed. -/
theorem C7_position_eval :
    windowSubbands 100 4 "upper" = [98, 99, 100, 101] ∧
    windowSubbands 100 4 "lower" = [100, 101, 102, 103] ∧
    windowSubbands 100 4 "center" = [98, 99, 100, 101] := by
  refine ⟨?_, ?_, ?_⟩ <;> decide

end LofarCtl
